import Mathlib

set_option maxRecDepth 8192

/-
  Verification of the minimal ECS in EriKWDev/rust_2d_macro.

  Shallow embedding of:
    - src/bitsets.rs     (BitSet over i8)
    - src/main.rs        (entity registry over slotmap's DenseSlotMap,
                          component containers over SecondaryMap /
                          SparseSecondaryMap, Game facade, query filtering,
                          fixed-timestep frame loop)

  Machine integers: the i8 backing a BitSet is modelled by its 8-bit
  two's-complement bit pattern, a natural number in [0, 256).  On patterns,
  i8 OR is Nat lor, i8 AND is Nat land, i8 NOT is XOR with 255, and the
  i8 comparisons (== and != 0) are pattern comparisons, so every BitSet
  operation of the source translates literally.
-/

namespace RustEcs

/-! ## src/bitsets.rs -/

/-- The `Flag` type of the source (`pub type Flag = BitSetImpl = i8`),
modelled by the 8-bit pattern of the i8 value. -/
abbrev Flag := Nat

/-- `BitSet { bits: i8 }` from src/bitsets.rs. -/
structure BitSet where
  bits : Nat
  deriving DecidableEq

/-- `BitSet::new(bits)`. -/
def BitSet.new (bits : Flag) : BitSet := ⟨bits⟩

/-- `BitSet::with(&self, flag)`: `self.bits | flag` (named `withFlag` because
`with` is a Lean keyword).  OR of two 8-bit patterns is an 8-bit pattern, so
no wrap-around masking is needed. -/
def BitSet.withFlag (s : BitSet) (flag : Flag) : BitSet := ⟨s.bits ||| flag⟩

/-- `BitSet::empty()`. -/
def BitSet.empty : BitSet := ⟨0⟩

/-- `BitSet::include_flag(&mut self, flag)`: `self.bits |= flag`, as a pure
state transformer. -/
def BitSet.include_flag (s : BitSet) (flag : Flag) : BitSet := ⟨s.bits ||| flag⟩

/-- `BitSet::exclude_flag(&mut self, flag)`: `self.bits &= !flag`; i8 NOT of
the pattern of `flag` is XOR with 255. -/
def BitSet.exclude_flag (s : BitSet) (flag : Flag) : BitSet :=
  ⟨s.bits &&& (255 ^^^ flag % 256)⟩

/-- `BitSet::contains(&self, flag)`: `(self.bits & flag) != 0`. -/
def BitSet.contains (s : BitSet) (flag : Flag) : Bool := (s.bits &&& flag) != 0

/-- `BitSet::is_subset_of(&self, other)`: `(other.bits & self.bits) == self.bits`. -/
def BitSet.is_subset_of (s other : BitSet) : Bool :=
  (other.bits &&& s.bits) == s.bits

/-- The reading of "all bits of `flag` are set in `s`" used by the spec's
description of `contains` (C3): `s.bits & flag == flag`. -/
def BitSet.containsAllBits (s : BitSet) (flag : Flag) : Prop :=
  s.bits &&& flag = flag

/-! ## `mod components` from src/main.rs -/

namespace components

abbrev Query := BitSet

def TEXTURE : Flag := 1 <<< 0
def RIGIDBODY : Flag := 1 <<< 1
def COLLIDER : Flag := 1 <<< 2
def FIXED_COLLIDER : Flag := 1 <<< 3
def PLAYER : Flag := 1 <<< 4

def NUM_COMPONENTS : Nat := 5

end components

/-! ## Entity registry: `DenseSlotMap<Entity, BitSet>` from slotmap

`new_key_type! { pub struct Entity; }` produces generational keys: an index
plus a version.  A slot map slot stores the current version of its index and,
when occupied, a value; `get` succeeds only when the key's version matches
the slot's, the version of a slot strictly increases every time the slot is
vacated or refilled, so a removed key can never again denote a live entity.
The free-slot selection below is first-vacant rather than the crate's LIFO
free list; every claim here is about membership, never iteration order. -/

structure Entity where
  idx : Nat
  gen : Nat
  deriving DecidableEq

/-- One backing slot of the slot map: its current generation and, when the
slot is occupied, the stored `BitSet`. -/
structure Slot where
  gen : Nat
  val : Option BitSet
  deriving DecidableEq

def slotAt : List Slot → Nat → Option Slot
  | [], _ => none
  | s :: _, 0 => some s
  | _ :: rest, n + 1 => slotAt rest n

def setAt : List Slot → Nat → Slot → List Slot
  | [], _, _ => []
  | _ :: rest, 0, v => v :: rest
  | s :: rest, n + 1, v => s :: setAt rest n v

/-- Index and generation of the first vacant slot, if any. -/
def findVacant : List Slot → Option (Nat × Nat)
  | [] => none
  | s :: rest =>
    match s.val with
    | none => some (0, s.gen)
    | some _ => (findVacant rest).map (fun p => (p.1 + 1, p.2))

structure EntityMap where
  slots : List Slot
  deriving DecidableEq

/-- `DenseSlotMap::insert`: reuse a vacant slot (bumping its generation) or
grow the backing storage.  Never fails at the scales of this program. -/
def EntityMap.insert (m : EntityMap) (v : BitSet) : EntityMap × Entity :=
  match findVacant m.slots with
  | some (i, g) => (⟨setAt m.slots i ⟨g + 1, some v⟩⟩, ⟨i, g + 1⟩)
  | none => (⟨m.slots ++ [⟨0, some v⟩]⟩, ⟨m.slots.length, 0⟩)

/-- `DenseSlotMap::get`: the stored value iff the slot is occupied and the
key's generation matches. -/
def EntityMap.get (m : EntityMap) (e : Entity) : Option BitSet :=
  match slotAt m.slots e.idx with
  | some s => if s.gen = e.gen then s.val else none
  | none => none

/-- `DenseSlotMap::remove`: vacate the slot and bump its generation iff the
key is currently live; otherwise do nothing. -/
def EntityMap.remove (m : EntityMap) (e : Entity) : EntityMap :=
  match slotAt m.slots e.idx with
  | some s =>
    if s.gen = e.gen ∧ s.val.isSome then ⟨setAt m.slots e.idx ⟨s.gen + 1, none⟩⟩
    else m
  | none => m

/-- `DenseSlotMap::get_mut` followed by a mutation of the stored bitset:
succeeds iff the key is live. -/
def EntityMap.update (m : EntityMap) (e : Entity) (f : BitSet → BitSet) :
    Option EntityMap :=
  match m.get e with
  | some b => some ⟨setAt m.slots e.idx ⟨e.gen, some (f b)⟩⟩
  | none => none

/-- The (key, value) entries of the slots, keys carrying absolute indices
starting at `i`: the contents yielded by `DenseSlotMap::iter`. -/
def slotsEntries : List Slot → Nat → List (Entity × BitSet)
  | [], _ => []
  | s :: rest, i =>
    match s.val with
    | some b => (⟨i, s.gen⟩, b) :: slotsEntries rest (i + 1)
    | none => slotsEntries rest (i + 1)

/-- `self.entities.iter()`: all live (entity, bitset) pairs. -/
def EntityMap.iterList (m : EntityMap) : List (Entity × BitSet) :=
  slotsEntries m.slots 0

/-- `DenseSlotMap::len`: the number of occupied slots. -/
def EntityMap.liveCount (m : EntityMap) : Nat :=
  (m.slots.filter (fun s => s.val.isSome)).length

/-- A key whose slot has moved past it: the slot at `e.idx` exists and its
generation exceeds `e.gen`.  This is the state of a key right after its
entity is removed, and it is preserved by every registry operation. -/
def EntityMap.deadFor (m : EntityMap) (e : Entity) : Prop :=
  ∃ s, slotAt m.slots e.idx = some s ∧ e.gen < s.gen

/-! ## Component value types and containers

The component payloads reference external render/physics objects
(`Texture2D`, `Vec2`, `Color`, `RigidBodyHandle`, `ColliderHandle`); the ECS
never inspects them, so they are modelled as opaque tokens.  Handles returned
by `RigidBodySet::insert` / `ColliderSet::insert_with_parent` are modelled as
the values of an allocation counter. -/

abbrev Label := Nat

structure TextureComponent where
  texture : Nat
  size : Nat
  color : Nat
  deriving DecidableEq

structure RigidbodyComponent where
  rigidbody_handle : Nat
  deriving DecidableEq

structure ColliderComponent where
  collider_handle : Nat
  deriving DecidableEq

structure PlayerComponent where
  deriving DecidableEq

/-- One entry of a secondary map: the slot index and generation of the key it
was inserted with, and the stored value. -/
structure CEntry (α : Type) where
  idx : Nat
  gen : Nat
  val : α
  deriving DecidableEq

/-- `SecondaryMap` / `SparseSecondaryMap`: per-slot-index storage versioned
by the key generation, modelled as an association list keyed by slot index
(latest insert for an index wins, exactly one entry per index once built by
`insert`). -/
abbrev CMap (α : Type) := List (CEntry α)

def CMap.insert (m : CMap α) (e : Entity) (v : α) : CMap α :=
  ⟨e.idx, e.gen, v⟩ :: m.filter (fun c => !(c.idx == e.idx))

def CMap.get : CMap α → Entity → Option α
  | [], _ => none
  | c :: rest, e =>
    if c.idx = e.idx then (if c.gen = e.gen then some c.val else none)
    else CMap.get rest e

/-- The keys yielded by iterating the container. -/
def CMap.keys (m : CMap α) : List Entity := m.map (fun c => ⟨c.idx, c.gen⟩)

/-! ## `mod constants` and the `Game` facade from src/main.rs -/

namespace constants

def MAX_ENTITIES : Nat := 1000

/-- `GOAL_DELTA_TIME: f64 = 1.0 / 60.0`.  The accumulator arithmetic of the
frame loop is modelled over exact rationals (f64 rounding abstracted). -/
def GOAL_DELTA_TIME : ℚ := 1 / 60

end constants

/-- Opaque descriptor for a `rapier2d` `RigidBody` (built by
`RigidBodyBuilder`); its contents never reach the ECS. -/
abbrev RigidBody := Unit

/-- Opaque descriptor for a `rapier2d` `Collider`. -/
abbrev Collider := Unit

/-- The ECS-relevant state of `struct Game`: the entity registry, the five
component containers, and the external physics sets (modelled as handle
allocation counters — `RigidBodySet::insert` returns the next fresh
handle).  Camera, input bindings and the rest of the physics pipeline are
external collaborators that no claim touches. -/
structure Game where
  entities : EntityMap
  label_container : CMap Label
  texture_container : CMap TextureComponent
  rigidbody_container : CMap RigidbodyComponent
  collider_container : CMap ColliderComponent
  player_container : CMap PlayerComponent
  rigid_body_set : Nat
  collider_set : Nat
  deriving DecidableEq

/-- `Game::default()`: empty registry (`with_capacity_and_key` only reserves
capacity) and empty containers. -/
def Game.default : Game := ⟨⟨[]⟩, [], [], [], [], [], 0, 0⟩

/-- `Game::new_entity`: insert an empty bitset into the registry and record
the debug label. -/
def Game.new_entity (g : Game) (label : Label) : Game × Entity :=
  let p := g.entities.insert BitSet.empty
  ({ g with
      entities := p.1
      label_container := g.label_container.insert p.2 label },
    p.2)

/-- `Game::remove_entity`: `self.entities.remove(entity)` — nothing else. -/
def Game.remove_entity (g : Game) (e : Entity) : Game :=
  { g with entities := g.entities.remove e }

/-- `Game::add_flag`: `self.entities.get_mut(entity).unwrap().include_flag(flag)`;
the `unwrap` panics when the entity is not live, modelled by `none`. -/
def Game.add_flag (g : Game) (e : Entity) (flag : Flag) : Option Game :=
  (g.entities.update e (fun b => b.include_flag flag)).map
    (fun em => { g with entities := em })

/-- `Game::remove_flag`: like `add_flag` with `exclude_flag`. -/
def Game.remove_flag (g : Game) (e : Entity) (flag : Flag) : Option Game :=
  (g.entities.update e (fun b => b.exclude_flag flag)).map
    (fun em => { g with entities := em })

/-- `Game::add_texture`: container insert, then `add_flag(entity, TEXTURE)`. -/
def Game.add_texture (g : Game) (e : Entity) (c : TextureComponent) :
    Option Game :=
  ({ g with texture_container := g.texture_container.insert e c } : Game).add_flag
    e components.TEXTURE

/-- `Game::add_player_component`: container insert, then
`add_flag(entity, PLAYER)`. -/
def Game.add_player_component (g : Game) (e : Entity) (c : PlayerComponent) :
    Option Game :=
  ({ g with player_container := g.player_container.insert e c } : Game).add_flag
    e components.PLAYER

/-- `Game::add_physics`: allocate a rigid-body handle and a collider handle
in the external sets, store them in the two containers, then set the
RIGIDBODY and COLLIDER flags. -/
def Game.add_physics (g : Game) (e : Entity) (_rigid_body : RigidBody)
    (_collider : Collider) : Option Game :=
  let rigidbody_handle := g.rigid_body_set
  let collider_handle := g.collider_set
  let g1 : Game :=
    { g with
        rigid_body_set := g.rigid_body_set + 1
        collider_set := g.collider_set + 1
        rigidbody_container := g.rigidbody_container.insert e ⟨rigidbody_handle⟩
        collider_container := g.collider_container.insert e ⟨collider_handle⟩ }
  (g1.add_flag e components.RIGIDBODY).bind
    (fun g2 => g2.add_flag e components.COLLIDER)

/-- `Game::add_fixed_collider`: `add_physics` with a fixed rigid body, then
`add_flag(entity, FIXED_COLLIDER)`. -/
def Game.add_fixed_collider (g : Game) (e : Entity) (collider : Collider) :
    Option Game :=
  (g.add_physics e () collider).bind
    (fun g2 => g2.add_flag e components.FIXED_COLLIDER)

/-! ## The query engine

`render_sprites_system` / `render_fixed_colliders` both run
`self.entities.iter().filter(|(_, bitset)| QUERY.is_subset_of(bitset))`;
`query` is that selection, returning the selected entities. -/

def Game.query (g : Game) (q : components.Query) : List Entity :=
  ((g.entities.iterList).filter (fun p => q.is_subset_of p.2)).map (fun p => p.1)

/-- The set of entities `player_movement_system` visits: it iterates
`self.player_container` directly instead of running a query. -/
def Game.player_movement_visited (g : Game) : List Entity :=
  g.player_container.keys

/-- Invariant tying the player container to the registry: an entity is a key
of `player_container` exactly when it is live and its bitset has the PLAYER
bit.  Maintained by every creation/attachment operation. -/
def PlayerInv (g : Game) : Prop :=
  ∀ e, e ∈ g.player_container.keys ↔
    ∃ b, g.entities.get e = some b ∧
      b.bits &&& components.PLAYER = components.PLAYER

/-! ## Operation sequences over the ECS API -/

/-- One call of the public ECS API of `Game`. -/
inductive Op where
  | newEntity (label : Label)
  | removeEntity (e : Entity)
  | addFlag (e : Entity) (f : Flag)
  | removeFlag (e : Entity) (f : Flag)
  | addTexture (e : Entity) (c : TextureComponent)
  | addPlayer (e : Entity) (c : PlayerComponent)
  | addPhysics (e : Entity) (rb : RigidBody) (col : Collider)
  | addFixedCollider (e : Entity) (col : Collider)

def Game.applyOp (g : Game) : Op → Option Game
  | .newEntity l => some (g.new_entity l).1
  | .removeEntity e => some (g.remove_entity e)
  | .addFlag e f => g.add_flag e f
  | .removeFlag e f => g.remove_flag e f
  | .addTexture e c => g.add_texture e c
  | .addPlayer e c => g.add_player_component e c
  | .addPhysics e rb col => g.add_physics e rb col
  | .addFixedCollider e col => g.add_fixed_collider e col

/-- Run a sequence of API calls; `none` as soon as one panics. -/
def Game.runOps (g : Game) : List Op → Option Game
  | [] => some g
  | op :: ops => (g.applyOp op).bind (fun g2 => g2.runOps ops)

/-- States reachable from the initial game using only entity creation and the
component-attachment operations (no `remove_entity`, no `remove_flag`, no
bare `add_flag`). -/
inductive Reachable : Game → Prop where
  | init : Reachable Game.default
  | newEntity {g : Game} (l : Label) :
      Reachable g → Reachable (g.new_entity l).1
  | addTexture {g g' : Game} (e : Entity) (c : TextureComponent) :
      Reachable g → g.add_texture e c = some g' → Reachable g'
  | addPlayer {g g' : Game} (e : Entity) (c : PlayerComponent) :
      Reachable g → g.add_player_component e c = some g' → Reachable g'
  | addPhysics {g g' : Game} (e : Entity) (rb : RigidBody) (col : Collider) :
      Reachable g → g.add_physics e rb col = some g' → Reachable g'
  | addFixedCollider {g g' : Game} (e : Entity) (col : Collider) :
      Reachable g → g.add_fixed_collider e col = some g' → Reachable g'

/-! ## The fixed-timestep frame loop (`Application::run`)

```
self.lag += delta;
while self.lag >= GOAL_DELTA_TIME {
    self.game.run_logic_systems(GOAL_DELTA_TIME as f32);
    self.lag -= GOAL_DELTA_TIME;
}
```

`logicPhase lag` runs the inner while loop, returning the list of delta
arguments passed to `run_logic_systems` together with the final accumulator
value.  `runFrames` iterates whole frames over a list of frame durations,
starting from `Application::default()`'s `lag = 0.0`. -/

def logicPhase (lag : ℚ) : List ℚ × ℚ :=
  if h : constants.GOAL_DELTA_TIME ≤ lag then
    let r := logicPhase (lag - constants.GOAL_DELTA_TIME)
    (constants.GOAL_DELTA_TIME :: r.1, r.2)
  else ([], lag)
termination_by (⌊lag * 60⌋).toNat
decreasing_by
  have hd : constants.GOAL_DELTA_TIME = (1 : ℚ) / 60 := rfl
  rw [hd] at h
  have h1 : ((lag - 1 / 60) * 60 : ℚ) = lag * 60 - 1 := by ring
  have h2 : (⌊(lag - constants.GOAL_DELTA_TIME) * 60⌋ : ℤ) = ⌊lag * 60⌋ - 1 := by
    rw [hd, h1, Int.floor_sub_one]
  have h3 : (1 : ℤ) ≤ ⌊lag * 60⌋ := by
    rw [Int.le_floor]
    push_cast
    linarith
  omega

/-- One displayed frame with duration `delta`: accumulate, then run the
logic phase. -/
def frameStep (lag delta : ℚ) : List ℚ × ℚ := logicPhase (lag + delta)

/-- Run the loop over a list of frame durations; collect every delta handed
to `run_logic_systems` and the final accumulator. -/
def runFrames : ℚ → List ℚ → List ℚ × ℚ
  | lag, [] => ([], lag)
  | lag, d :: ds =>
    let p := frameStep lag d
    let r := runFrames p.2 ds
    (p.1 ++ r.1, r.2)

/-! ## Concrete states used by witnesses and counterexamples -/

/-- A backing store of `n` occupied slots, all at generation 0. -/
def fullSlots (n : Nat) : List Slot := List.replicate n ⟨0, some BitSet.empty⟩

/-- A registry state holding `MAX_ENTITIES` live entities. -/
def gameFull : Game := { Game.default with entities := ⟨fullSlots constants.MAX_ENTITIES⟩ }

/-- The game after one `new_entity` call on the initial state; its entity is
`⟨0, 0⟩`. -/
def demoGame1 : Game := (Game.default.new_entity 0).1

def demoE : Entity := ⟨0, 0⟩

/-- `demoGame1` after removing its only entity and then creating one fresh
entity (which reuses slot 0 at generation 2). -/
def demoAfter : Game :=
  (((demoGame1.remove_entity demoE).runOps [Op.newEntity 1]).getD Game.default)

/-- `demoGame1` after attaching a texture component to its entity. -/
def demoTexGame : Game :=
  (demoGame1.add_texture demoE ⟨1, 2, 3⟩).getD Game.default

/-- `demoGame1` after attaching a player component to its entity. -/
def demoPlayerGame : Game :=
  (demoGame1.add_player_component demoE ⟨⟩).getD Game.default

/-! ## Lemmas: slot primitives -/

theorem slotAt_none_iff (slots : List Slot) (i : Nat) :
    slotAt slots i = none ↔ slots.length ≤ i := by
  induction slots generalizing i with
  | nil => simp [slotAt]
  | cons s rest ih =>
    cases i with
    | zero => simp [slotAt]
    | succ n => simpa [slotAt, Nat.succ_le_succ_iff] using ih n

theorem slotAt_lt_length {slots : List Slot} {i : Nat} {s : Slot}
    (h : slotAt slots i = some s) : i < slots.length := by
  by_contra hge
  rw [(slotAt_none_iff slots i).mpr (Nat.le_of_not_lt hge)] at h
  exact Option.noConfusion h

theorem length_setAt (slots : List Slot) (i : Nat) (v : Slot) :
    (setAt slots i v).length = slots.length := by
  induction slots generalizing i with
  | nil => rfl
  | cons s rest ih =>
    cases i with
    | zero => rfl
    | succ n => simpa [setAt] using ih n

theorem slotAt_setAt_eq {slots : List Slot} {i : Nat} (v : Slot)
    (h : i < slots.length) : slotAt (setAt slots i v) i = some v := by
  induction slots generalizing i with
  | nil => exact absurd h (by simp)
  | cons s rest ih =>
    cases i with
    | zero => rfl
    | succ n =>
      simp only [setAt, slotAt]
      exact ih (Nat.lt_of_succ_lt_succ h)

theorem slotAt_setAt_ne {i j : Nat} (slots : List Slot) (v : Slot)
    (h : j ≠ i) : slotAt (setAt slots i v) j = slotAt slots j := by
  induction slots generalizing i j with
  | nil => rfl
  | cons s rest ih =>
    cases i with
    | zero =>
      cases j with
      | zero => exact absurd rfl h
      | succ n => rfl
    | succ m =>
      cases j with
      | zero => rfl
      | succ n =>
        simp only [setAt, slotAt]
        exact ih (fun hc => h (by rw [hc]))

theorem slotAt_append_sing (xs : List Slot) (s : Slot) :
    slotAt (xs ++ [s]) xs.length = some s := by
  induction xs with
  | nil => rfl
  | cons x rest ih => simpa [slotAt] using ih

theorem slotAt_append_ne (xs : List Slot) (s : Slot) {i : Nat}
    (h : i ≠ xs.length) : slotAt (xs ++ [s]) i = slotAt xs i := by
  induction xs generalizing i with
  | nil =>
    cases i with
    | zero => exact absurd rfl h
    | succ n => cases n <;> rfl
  | cons x rest ih =>
    cases i with
    | zero => rfl
    | succ n =>
      simp only [List.cons_append, slotAt]
      exact ih (fun hc => h (by simp [hc]))

theorem findVacant_spec {slots : List Slot} {p : Nat × Nat}
    (h : findVacant slots = some p) : slotAt slots p.1 = some ⟨p.2, none⟩ := by
  induction slots generalizing p with
  | nil => exact Option.noConfusion h
  | cons s rest ih =>
    obtain ⟨sg, sv⟩ := s
    cases sv with
    | none =>
      have he : findVacant (⟨sg, none⟩ :: rest) = some (0, sg) := rfl
      rw [he] at h
      cases h
      rfl
    | some b =>
      have he : findVacant (⟨sg, some b⟩ :: rest) =
          (findVacant rest).map (fun q => (q.1 + 1, q.2)) := rfl
      rw [he] at h
      cases hr : findVacant rest with
      | none => rw [hr] at h; exact Option.noConfusion h
      | some q =>
        rw [hr, Option.map_some'] at h
        cases h
        simpa [slotAt] using ih hr

/-! ## Lemmas: the entity map -/

theorem EntityMap.get_eq_some_iff (m : EntityMap) (e : Entity) (b : BitSet) :
    m.get e = some b ↔ slotAt m.slots e.idx = some ⟨e.gen, some b⟩ := by
  unfold EntityMap.get
  cases h : slotAt m.slots e.idx with
  | none => simp
  | some s =>
    by_cases hg : s.gen = e.gen
    · cases s
      cases hg
      simp
    · simp only [if_neg hg]
      constructor
      · intro hc; exact Option.noConfusion hc
      · intro hc
        cases hc
        exact absurd rfl hg

theorem EntityMap.insert_ret_get (m : EntityMap) (v : BitSet) :
    (m.insert v).1.get (m.insert v).2 = some v := by
  unfold EntityMap.insert
  cases hf : findVacant m.slots with
  | some p =>
    obtain ⟨i, g⟩ := p
    have hs := findVacant_spec hf
    have hlt : i < m.slots.length := slotAt_lt_length hs
    simp only [EntityMap.get_eq_some_iff]
    exact slotAt_setAt_eq _ hlt
  | none =>
    simp only [EntityMap.get_eq_some_iff]
    exact slotAt_append_sing m.slots _

theorem EntityMap.insert_fresh (m : EntityMap) (v : BitSet) :
    m.get (m.insert v).2 = none := by
  unfold EntityMap.insert
  cases hf : findVacant m.slots with
  | some p =>
    obtain ⟨i, g⟩ := p
    have hs := findVacant_spec hf
    unfold EntityMap.get
    simp only [hs]
    simp
  | none =>
    unfold EntityMap.get
    simp only
    rw [(slotAt_none_iff m.slots m.slots.length).mpr (Nat.le_refl _)]

theorem EntityMap.insert_get_other (m : EntityMap) (v : BitSet) (e : Entity)
    (h : e ≠ (m.insert v).2) : (m.insert v).1.get e = m.get e := by
  cases hf : findVacant m.slots with
  | some p =>
    obtain ⟨i, g⟩ := p
    have h1 : (m.insert v).1 = ⟨setAt m.slots i ⟨g + 1, some v⟩⟩ := by
      unfold EntityMap.insert; rw [hf]
    have h2 : (m.insert v).2 = ⟨i, g + 1⟩ := by
      unfold EntityMap.insert; rw [hf]
    rw [h2] at h
    rw [h1]
    have hs : slotAt m.slots i = some ⟨g, none⟩ := findVacant_spec hf
    by_cases hi : e.idx = i
    · have hg : e.gen ≠ g + 1 := by
        intro hc
        exact h (by cases e; cases hi; cases hc; rfl)
      unfold EntityMap.get
      rw [hi, slotAt_setAt_eq _ (slotAt_lt_length hs), hs]
      dsimp only
      rw [if_neg (fun hx : g + 1 = e.gen => hg hx.symm)]
      split <;> rfl
    · unfold EntityMap.get
      rw [slotAt_setAt_ne _ _ hi]
  | none =>
    have h1 : (m.insert v).1 = ⟨m.slots ++ [⟨0, some v⟩]⟩ := by
      unfold EntityMap.insert; rw [hf]
    have h2 : (m.insert v).2 = ⟨m.slots.length, 0⟩ := by
      unfold EntityMap.insert; rw [hf]
    rw [h2] at h
    rw [h1]
    by_cases hi : e.idx = m.slots.length
    · have hg : e.gen ≠ 0 := by
        intro hc
        exact h (by cases e; cases hi; cases hc; rfl)
      unfold EntityMap.get
      rw [hi, slotAt_append_sing, (slotAt_none_iff m.slots _).mpr (Nat.le_refl _)]
      dsimp only
      rw [if_neg (fun hx : (0 : Nat) = e.gen => hg hx.symm)]
    · unfold EntityMap.get
      rw [slotAt_append_ne _ _ hi]

theorem EntityMap.remove_eq_of_live {m : EntityMap} {e : Entity} {s : Slot}
    (hs : slotAt m.slots e.idx = some s) (hc : s.gen = e.gen ∧ s.val.isSome) :
    m.remove e = ⟨setAt m.slots e.idx ⟨s.gen + 1, none⟩⟩ := by
  unfold EntityMap.remove
  rw [hs]
  exact if_pos hc

theorem EntityMap.remove_eq_self_of_stale {m : EntityMap} {e : Entity} {s : Slot}
    (hs : slotAt m.slots e.idx = some s) (hc : ¬(s.gen = e.gen ∧ s.val.isSome)) :
    m.remove e = m := by
  unfold EntityMap.remove
  rw [hs]
  exact if_neg hc

theorem EntityMap.remove_eq_self_of_out {m : EntityMap} {e : Entity}
    (hs : slotAt m.slots e.idx = none) : m.remove e = m := by
  unfold EntityMap.remove
  rw [hs]

theorem EntityMap.remove_get_self (m : EntityMap) (e : Entity) :
    (m.remove e).get e = none := by
  cases hs : slotAt m.slots e.idx with
  | none =>
    rw [EntityMap.remove_eq_self_of_out hs]
    unfold EntityMap.get
    rw [hs]
  | some s =>
    by_cases hc : s.gen = e.gen ∧ s.val.isSome
    · rw [EntityMap.remove_eq_of_live hs hc]
      unfold EntityMap.get
      rw [slotAt_setAt_eq _ (slotAt_lt_length hs)]
      dsimp only
      have hg := hc.1
      rw [if_neg (by omega : ¬s.gen + 1 = e.gen)]
    · rw [EntityMap.remove_eq_self_of_stale hs hc]
      unfold EntityMap.get
      rw [hs]
      dsimp only
      rcases Decidable.not_and_iff_or_not.mp hc with hg | ho
      · rw [if_neg hg]
      · by_cases hg : s.gen = e.gen
        · rw [if_pos hg]
          cases hv : s.val with
          | none => rfl
          | some b => exact absurd (by rw [hv]; rfl) ho
        · rw [if_neg hg]

theorem EntityMap.remove_get_other (m : EntityMap) (e e' : Entity)
    (h : e' ≠ e) : (m.remove e).get e' = m.get e' := by
  cases hs : slotAt m.slots e.idx with
  | none => rw [EntityMap.remove_eq_self_of_out hs]
  | some s =>
    by_cases hc : s.gen = e.gen ∧ s.val.isSome
    · rw [EntityMap.remove_eq_of_live hs hc]
      by_cases hi : e'.idx = e.idx
      · have hg : e'.gen ≠ e.gen := by
          intro hgc
          exact h (by cases e; cases e'; cases hi; cases hgc; rfl)
        unfold EntityMap.get
        rw [hi, slotAt_setAt_eq _ (slotAt_lt_length hs), hs]
        dsimp only
        have hg1 := hc.1
        rw [if_neg (fun hx : s.gen = e'.gen => hg (hx ▸ hg1))]
        split <;> rfl
      · unfold EntityMap.get
        rw [slotAt_setAt_ne _ _ hi]
    · rw [EntityMap.remove_eq_self_of_stale hs hc]

theorem EntityMap.update_spec {m m' : EntityMap} {e : Entity}
    {f : BitSet → BitSet} (h : m.update e f = some m') :
    ∃ b, m.get e = some b ∧ m'.get e = some (f b) ∧
      ∀ e', e' ≠ e → m'.get e' = m.get e' := by
  unfold EntityMap.update at h
  cases hg : m.get e with
  | none => rw [hg] at h; exact Option.noConfusion h
  | some b =>
    rw [hg] at h
    cases h
    have hslot : slotAt m.slots e.idx = some ⟨e.gen, some b⟩ :=
      (EntityMap.get_eq_some_iff m e b).mp hg
    have hlt : e.idx < m.slots.length := slotAt_lt_length hslot
    refine ⟨b, rfl, ?_, ?_⟩
    · rw [EntityMap.get_eq_some_iff]
      exact slotAt_setAt_eq _ hlt
    · intro e' hne
      by_cases hi : e'.idx = e.idx
      · have hgen : e'.gen ≠ e.gen := by
          intro hgc
          exact hne (by cases e; cases e'; cases hi; cases hgc; rfl)
        unfold EntityMap.get
        rw [hi, slotAt_setAt_eq _ hlt, hslot]
        simp only
        rw [if_neg (fun hx => hgen hx.symm), if_neg (fun hx => hgen hx.symm)]
      · unfold EntityMap.get
        rw [slotAt_setAt_ne _ _ hi]

theorem EntityMap.update_none_iff (m : EntityMap) (e : Entity)
    (f : BitSet → BitSet) : m.update e f = none ↔ m.get e = none := by
  unfold EntityMap.update
  cases m.get e <;> simp

/-! ## Lemmas: iteration and live count -/

theorem mem_slotsEntries (slots : List Slot) (i : Nat) (e : Entity) (b : BitSet) :
    (e, b) ∈ slotsEntries slots i ↔
      ∃ j, slotAt slots j = some ⟨e.gen, some b⟩ ∧ e.idx = i + j := by
  induction slots generalizing i with
  | nil => simp [slotsEntries, slotAt]
  | cons s rest ih =>
    obtain ⟨sg, sv⟩ := s
    cases sv with
    | some b0 =>
      have he : slotsEntries (⟨sg, some b0⟩ :: rest) i =
          (⟨i, sg⟩, b0) :: slotsEntries rest (i + 1) := rfl
      rw [he, List.mem_cons, ih (i + 1)]
      constructor
      · rintro (hhead | ⟨j, hj, hij⟩)
        · have h1 : e = ⟨i, sg⟩ := congrArg Prod.fst hhead
          have h2 : b = b0 := congrArg Prod.snd hhead
          refine ⟨0, ?_, ?_⟩
          · simp [h1, h2, slotAt]
          · simp [h1]
        · refine ⟨j + 1, ?_, by omega⟩
          simpa [slotAt] using hj
      · rintro ⟨j, hj, hij⟩
        cases j with
        | zero =>
          have hs : (⟨sg, some b0⟩ : Slot) = ⟨e.gen, some b⟩ := by
            simpa [slotAt] using hj
          have hgen : sg = e.gen := congrArg Slot.gen hs
          have hv : (some b0 : Option BitSet) = some b := congrArg Slot.val hs
          have hb : b0 = b := Option.some_injective _ hv
          left
          cases e with
          | mk ei eg =>
            have hidx : ei = i := by simpa using hij
            have hg2 : eg = sg := by simpa using hgen.symm
            rw [hidx, hg2, hb]
        | succ j' =>
          right
          exact ⟨j', by simpa [slotAt] using hj, by omega⟩
    | none =>
      have he : slotsEntries (⟨sg, none⟩ :: rest) i = slotsEntries rest (i + 1) := rfl
      rw [he, ih (i + 1)]
      constructor
      · rintro ⟨j, hj, hij⟩
        exact ⟨j + 1, by simpa [slotAt] using hj, by omega⟩
      · rintro ⟨j, hj, hij⟩
        cases j with
        | zero =>
          have hs : (⟨sg, none⟩ : Slot) = ⟨e.gen, some b⟩ := by
            simpa [slotAt] using hj
          have hv : (none : Option BitSet) = some b := congrArg Slot.val hs
          exact Option.noConfusion hv
        | succ j' =>
          exact ⟨j', by simpa [slotAt] using hj, by omega⟩

theorem EntityMap.mem_iterList (m : EntityMap) (e : Entity) (b : BitSet) :
    (e, b) ∈ m.iterList ↔ m.get e = some b := by
  rw [EntityMap.iterList, mem_slotsEntries, EntityMap.get_eq_some_iff]
  constructor
  · rintro ⟨j, hj, hij⟩
    simpa [hij] using hj
  · intro h
    exact ⟨e.idx, h, by omega⟩

theorem filter_length_setAt_occupied {slots : List Slot} {i g : Nat}
    (hs : slotAt slots i = some ⟨g, none⟩) (g' : Nat) (v : BitSet) :
    ((setAt slots i ⟨g', some v⟩).filter (fun s => s.val.isSome)).length =
      (slots.filter (fun s => s.val.isSome)).length + 1 := by
  induction slots generalizing i with
  | nil => exact Option.noConfusion hs
  | cons s rest ih =>
    cases i with
    | zero =>
      have h1 : s = ⟨g, none⟩ := by simpa [slotAt] using hs
      rw [h1]
      simp [setAt, List.filter]
    | succ n =>
      have h1 : slotAt rest n = some ⟨g, none⟩ := by simpa [slotAt] using hs
      have h2 : setAt (s :: rest) (n + 1) ⟨g', some v⟩ =
          s :: setAt rest n ⟨g', some v⟩ := rfl
      rw [h2]
      cases hv : s.val.isSome with
      | true => simp [List.filter_cons, hv, ih h1]
      | false => simp [List.filter_cons, hv, ih h1]

theorem EntityMap.liveCount_insert (m : EntityMap) (v : BitSet) :
    (m.insert v).1.liveCount = m.liveCount + 1 := by
  cases hf : findVacant m.slots with
  | some p =>
    obtain ⟨i, g⟩ := p
    have h1 : (m.insert v).1 = ⟨setAt m.slots i ⟨g + 1, some v⟩⟩ := by
      unfold EntityMap.insert; rw [hf]
    have hs : slotAt m.slots i = some ⟨g, none⟩ := findVacant_spec hf
    rw [h1]
    exact filter_length_setAt_occupied hs (g + 1) v
  | none =>
    have h1 : (m.insert v).1 = ⟨m.slots ++ [⟨0, some v⟩]⟩ := by
      unfold EntityMap.insert; rw [hf]
    rw [h1]
    unfold EntityMap.liveCount
    simp

/-! ## Lemmas: dead keys stay dead -/

theorem EntityMap.deadFor_get_none {m : EntityMap} {e : Entity}
    (h : m.deadFor e) : m.get e = none := by
  obtain ⟨s, hs, hlt⟩ := h
  unfold EntityMap.get
  rw [hs]
  dsimp only
  rw [if_neg (by omega : ¬s.gen = e.gen)]

theorem EntityMap.deadFor_of_remove {m : EntityMap} {e : Entity} {b : BitSet}
    (h : m.get e = some b) : (m.remove e).deadFor e := by
  have hs : slotAt m.slots e.idx = some ⟨e.gen, some b⟩ :=
    (EntityMap.get_eq_some_iff m e b).mp h
  rw [EntityMap.remove_eq_of_live hs (by constructor <;> rfl)]
  exact ⟨⟨e.gen + 1, none⟩, slotAt_setAt_eq _ (slotAt_lt_length hs),
    Nat.lt_succ_self _⟩

theorem EntityMap.deadFor_insert {m : EntityMap} {e : Entity} (v : BitSet)
    (h : m.deadFor e) : (m.insert v).1.deadFor e := by
  obtain ⟨s, hs, hlt⟩ := h
  cases hf : findVacant m.slots with
  | some p =>
    obtain ⟨i, g⟩ := p
    have h1 : (m.insert v).1 = ⟨setAt m.slots i ⟨g + 1, some v⟩⟩ := by
      unfold EntityMap.insert; rw [hf]
    have hvs : slotAt m.slots i = some ⟨g, none⟩ := findVacant_spec hf
    rw [h1]
    by_cases hi : e.idx = i
    · refine ⟨⟨g + 1, some v⟩, ?_, ?_⟩
      · rw [hi]
        exact slotAt_setAt_eq _ (slotAt_lt_length hvs)
      · have h2 : s = ⟨g, none⟩ := by
          rw [hi] at hs; rw [hs] at hvs; exact Option.some_injective _ hvs
        have hgen : s.gen = g := congrArg Slot.gen h2
        show e.gen < g + 1
        omega
    · exact ⟨s, by rw [slotAt_setAt_ne _ _ hi]; exact hs, hlt⟩
  | none =>
    have h1 : (m.insert v).1 = ⟨m.slots ++ [⟨0, some v⟩]⟩ := by
      unfold EntityMap.insert; rw [hf]
    rw [h1]
    refine ⟨s, ?_, hlt⟩
    have hne : e.idx ≠ m.slots.length := fun hc => by
      rw [hc, (slotAt_none_iff m.slots _).mpr (Nat.le_refl _)] at hs
      exact Option.noConfusion hs
    rw [slotAt_append_ne _ _ hne]
    exact hs

theorem EntityMap.deadFor_remove {m : EntityMap} {e : Entity} (e' : Entity)
    (h : m.deadFor e) : (m.remove e').deadFor e := by
  obtain ⟨s, hs, hlt⟩ := h
  cases hs' : slotAt m.slots e'.idx with
  | none => rw [EntityMap.remove_eq_self_of_out hs']; exact ⟨s, hs, hlt⟩
  | some s' =>
    by_cases hc : s'.gen = e'.gen ∧ s'.val.isSome
    · rw [EntityMap.remove_eq_of_live hs' hc]
      by_cases hi : e.idx = e'.idx
      · refine ⟨⟨s'.gen + 1, none⟩, ?_, ?_⟩
        · rw [hi]
          exact slotAt_setAt_eq _ (slotAt_lt_length hs')
        · have h2 : s = s' := by
            rw [hi] at hs; rw [hs] at hs'; exact Option.some_injective _ hs'
          have hgen : s.gen = s'.gen := congrArg Slot.gen h2
          show e.gen < s'.gen + 1
          omega
      · exact ⟨s, by rw [slotAt_setAt_ne _ _ hi]; exact hs, hlt⟩
    · rw [EntityMap.remove_eq_self_of_stale hs' hc]
      exact ⟨s, hs, hlt⟩

theorem EntityMap.deadFor_update {m m' : EntityMap} {e e' : Entity}
    {f : BitSet → BitSet} (hu : m.update e' f = some m')
    (h : m.deadFor e) : m'.deadFor e := by
  obtain ⟨s, hs, hlt⟩ := h
  unfold EntityMap.update at hu
  cases hg : m.get e' with
  | none => rw [hg] at hu; exact Option.noConfusion hu
  | some b =>
    rw [hg] at hu
    cases hu
    have hslot : slotAt m.slots e'.idx = some ⟨e'.gen, some b⟩ :=
      (EntityMap.get_eq_some_iff m e' b).mp hg
    by_cases hi : e.idx = e'.idx
    · refine ⟨⟨e'.gen, some (f b)⟩, ?_, ?_⟩
      · rw [hi]
        exact slotAt_setAt_eq _ (slotAt_lt_length hslot)
      · have h2 : s = ⟨e'.gen, some b⟩ := by
          rw [hi] at hs; rw [hs] at hslot; exact Option.some_injective _ hslot
        have hgen : s.gen = e'.gen := congrArg Slot.gen h2
        show e.gen < e'.gen
        omega
    · exact ⟨s, by rw [slotAt_setAt_ne _ _ hi]; exact hs, hlt⟩

/-! ## Lemmas: bit algebra of flags -/

theorem land_ne_zero_iff (a b : Nat) :
    a &&& b ≠ 0 ↔ ∃ i, a.testBit i = true ∧ b.testBit i = true := by
  constructor
  · intro h
    by_contra hno
    push_neg at hno
    apply h
    apply Nat.eq_of_testBit_eq
    intro i
    rw [Nat.testBit_land, Nat.zero_testBit]
    cases ha : a.testBit i with
    | false => rfl
    | true =>
      cases hb : b.testBit i with
      | false => rfl
      | true => exact absurd hb (by simpa [ha] using hno i)
  · rintro ⟨i, ha, hb⟩ h0
    have hbit : (a &&& b).testBit i = true := by
      rw [Nat.testBit_land, ha, hb]; rfl
    rw [h0, Nat.zero_testBit] at hbit
    exact Bool.false_ne_true hbit

theorem contains_iff_exists_common_bit (s : BitSet) (f : Flag) :
    s.contains f = true ↔
      ∃ i, s.bits.testBit i = true ∧ f.testBit i = true := by
  unfold BitSet.contains
  rw [bne_iff_ne]
  exact land_ne_zero_iff s.bits f

theorem is_subset_of_iff (s other : BitSet) :
    s.is_subset_of other = true ↔
      ∀ i, s.bits.testBit i = true → other.bits.testBit i = true := by
  unfold BitSet.is_subset_of
  rw [beq_iff_eq]
  constructor
  · intro h i hi
    have hb := congrArg (fun n => n.testBit i) h
    simp only [Nat.testBit_land, hi, Bool.and_true] at hb
    exact hb
  · intro h
    apply Nat.eq_of_testBit_eq
    intro i
    rw [Nat.testBit_land]
    cases hs : s.bits.testBit i with
    | false => exact Bool.and_false _
    | true => rw [h i hs]; rfl

theorem land_self_eq (f : Nat) : f &&& f = f := by
  apply Nat.eq_of_testBit_eq
  intro i
  rw [Nat.testBit_land]
  cases f.testBit i <;> rfl

theorem lor_land_self (b f : Nat) : (b ||| f) &&& f = f := by
  apply Nat.eq_of_testBit_eq
  intro i
  rw [Nat.testBit_land, Nat.testBit_lor]
  cases b.testBit i <;> cases f.testBit i <;> rfl

theorem land_mono_lor {b g : Nat} (f : Nat) (h : b &&& g = g) :
    (b ||| f) &&& g = g := by
  apply Nat.eq_of_testBit_eq
  intro i
  have hb := congrArg (fun n => n.testBit i) h
  simp only [Nat.testBit_land] at hb
  rw [Nat.testBit_land, Nat.testBit_lor]
  cases hg : g.testBit i with
  | false => simp
  | true =>
    rw [hg] at hb
    simp only [Bool.and_true] at hb
    rw [hb]
    rfl

theorem lor_land_of_disjoint {f g : Nat} (h : f &&& g = 0) (b : Nat) :
    (b ||| f) &&& g = b &&& g := by
  apply Nat.eq_of_testBit_eq
  intro i
  have hfg := congrArg (fun n => n.testBit i) h
  simp only [Nat.testBit_land, Nat.zero_testBit] at hfg
  rw [Nat.testBit_land, Nat.testBit_land, Nat.testBit_lor]
  cases hf : f.testBit i <;> cases hg : g.testBit i <;>
    cases hb : b.testBit i <;> rw [hf, hg] at hfg <;>
    first | rfl | simp at hfg

/-! ## Lemmas: component containers -/

theorem CMap.get_insert_self (m : CMap α) (e : Entity) (v : α) :
    (m.insert e v).get e = some v := by
  unfold CMap.insert CMap.get
  rw [if_pos rfl, if_pos rfl]

theorem CMap.mem_keys_insert (m : CMap α) (e : Entity) (v : α) (e' : Entity) :
    e' ∈ (m.insert e v).keys ↔ e' = e ∨ (e' ∈ m.keys ∧ e'.idx ≠ e.idx) := by
  unfold CMap.insert CMap.keys
  rw [List.map_cons, List.mem_cons]
  constructor
  · rintro (h1 | h2)
    · exact Or.inl (h1.trans rfl)
    · obtain ⟨c, hc, hce⟩ := List.mem_map.mp h2
      obtain ⟨hcm, hp⟩ := List.mem_filter.mp hc
      refine Or.inr ⟨List.mem_map.mpr ⟨c, hcm, hce⟩, ?_⟩
      have hci : c.idx = e'.idx := congrArg Entity.idx hce
      rw [← hci]
      simpa using hp
  · rintro (h1 | ⟨h2, hne⟩)
    · exact Or.inl (h1.trans rfl)
    · obtain ⟨c, hcm, hce⟩ := List.mem_map.mp h2
      refine Or.inr (List.mem_map.mpr ⟨c, List.mem_filter.mpr ⟨hcm, ?_⟩, hce⟩)
      have hci : c.idx = e'.idx := congrArg Entity.idx hce
      simp [hci, hne]

theorem CMap.keys_nil_iff (e : Entity) : e ∈ CMap.keys (α := α) [] ↔ False := by
  simp [CMap.keys]

/-! ## Lemmas: the Game facade -/

theorem EntityMap.live_same_idx {m : EntityMap} {e1 e2 : Entity}
    {b1 b2 : BitSet} (h1 : m.get e1 = some b1) (h2 : m.get e2 = some b2)
    (hi : e1.idx = e2.idx) : e1 = e2 := by
  have hs1 := (EntityMap.get_eq_some_iff m e1 b1).mp h1
  have hs2 := (EntityMap.get_eq_some_iff m e2 b2).mp h2
  rw [hi] at hs1
  rw [hs1] at hs2
  have hgen : e1.gen = e2.gen :=
    congrArg Slot.gen (Option.some_injective _ hs2)
  cases e1; cases e2
  simp only at hi hgen
  rw [hi, hgen]

theorem Game.mem_query (g : Game) (q : components.Query) (e : Entity) :
    e ∈ g.query q ↔
      ∃ b, g.entities.get e = some b ∧ q.is_subset_of b = true := by
  unfold Game.query
  constructor
  · intro hm
    obtain ⟨p, hp, hpe⟩ := List.mem_map.mp hm
    obtain ⟨hpl, hpred⟩ := List.mem_filter.mp hp
    obtain ⟨pe, pb⟩ := p
    cases hpe
    exact ⟨pb, (EntityMap.mem_iterList _ _ _).mp hpl, hpred⟩
  · rintro ⟨b, hb, hsub⟩
    exact List.mem_map.mpr ⟨(e, b),
      List.mem_filter.mpr ⟨(EntityMap.mem_iterList _ _ _).mpr hb, hsub⟩, rfl⟩

theorem Game.add_flag_spec {g g' : Game} {e : Entity} {f : Flag}
    (h : g.add_flag e f = some g') :
    (∃ b, g.entities.get e = some b ∧
        g'.entities.get e = some (b.include_flag f) ∧
        ∀ e', e' ≠ e → g'.entities.get e' = g.entities.get e') ∧
      g'.label_container = g.label_container ∧
      g'.texture_container = g.texture_container ∧
      g'.rigidbody_container = g.rigidbody_container ∧
      g'.collider_container = g.collider_container ∧
      g'.player_container = g.player_container ∧
      g'.rigid_body_set = g.rigid_body_set ∧
      g'.collider_set = g.collider_set := by
  unfold Game.add_flag at h
  cases hu : g.entities.update e (fun b => b.include_flag f) with
  | none => rw [hu] at h; exact Option.noConfusion h
  | some em =>
    rw [hu, Option.map_some'] at h
    cases h
    obtain ⟨b, hb, hget, hother⟩ := EntityMap.update_spec hu
    exact ⟨⟨b, hb, hget, hother⟩, rfl, rfl, rfl, rfl, rfl, rfl, rfl⟩

theorem Game.add_flag_entities {g g' : Game} {e : Entity} {f : Flag}
    (h : g.add_flag e f = some g') :
    g.entities.update e (fun b => b.include_flag f) = some g'.entities := by
  unfold Game.add_flag at h
  cases hu : g.entities.update e (fun b => b.include_flag f) with
  | none => rw [hu] at h; exact Option.noConfusion h
  | some em =>
    rw [hu, Option.map_some'] at h
    cases h
    rfl

theorem Game.remove_flag_entities {g g' : Game} {e : Entity} {f : Flag}
    (h : g.remove_flag e f = some g') :
    g.entities.update e (fun b => b.exclude_flag f) = some g'.entities := by
  unfold Game.remove_flag at h
  cases hu : g.entities.update e (fun b => b.exclude_flag f) with
  | none => rw [hu] at h; exact Option.noConfusion h
  | some em =>
    rw [hu, Option.map_some'] at h
    cases h
    rfl

/-! ## Lemmas: every operation preserves dead keys -/

theorem Game.add_flag_deadFor {g g' : Game} {e0 e : Entity} {f : Flag}
    (h : g.add_flag e0 f = some g') (hd : g.entities.deadFor e) :
    g'.entities.deadFor e :=
  EntityMap.deadFor_update (Game.add_flag_entities h) hd

theorem Game.add_physics_deadFor {g g' : Game} {e0 e : Entity}
    {rb : RigidBody} {col : Collider} (h : g.add_physics e0 rb col = some g')
    (hd : g.entities.deadFor e) : g'.entities.deadFor e := by
  have h' : ((({ g with
        rigid_body_set := g.rigid_body_set + 1
        collider_set := g.collider_set + 1
        rigidbody_container := g.rigidbody_container.insert e0 ⟨g.rigid_body_set⟩
        collider_container := g.collider_container.insert e0 ⟨g.collider_set⟩ } :
      Game).add_flag e0 components.RIGIDBODY).bind
      (fun g2 => g2.add_flag e0 components.COLLIDER)) = some g' := h
  obtain ⟨g2, h2, h3⟩ := Option.bind_eq_some.mp h'
  exact Game.add_flag_deadFor h3 (Game.add_flag_deadFor h2 hd)

theorem Game.applyOp_deadFor {g g' : Game} {e : Entity} {op : Op}
    (h : g.applyOp op = some g') (hd : g.entities.deadFor e) :
    g'.entities.deadFor e := by
  cases op with
  | newEntity l =>
    cases h
    exact EntityMap.deadFor_insert _ hd
  | removeEntity e' =>
    cases h
    exact EntityMap.deadFor_remove _ hd
  | addFlag e' f =>
    exact Game.add_flag_deadFor h hd
  | removeFlag e' f =>
    exact EntityMap.deadFor_update (Game.remove_flag_entities h) hd
  | addTexture e' c =>
    have h' : ({ g with texture_container := g.texture_container.insert e' c } :
        Game).add_flag e' components.TEXTURE = some g' := h
    exact Game.add_flag_deadFor h' hd
  | addPlayer e' c =>
    have h' : ({ g with player_container := g.player_container.insert e' c } :
        Game).add_flag e' components.PLAYER = some g' := h
    exact Game.add_flag_deadFor h' hd
  | addPhysics e' rb col =>
    exact @Game.add_physics_deadFor g g' e' e rb col h hd
  | addFixedCollider e' col =>
    have h' : (g.add_physics e' () col).bind
        (fun g2 => g2.add_flag e' components.FIXED_COLLIDER) = some g' := h
    obtain ⟨g2, h2, h3⟩ := Option.bind_eq_some.mp h'
    exact Game.add_flag_deadFor h3 (Game.add_physics_deadFor h2 hd)

theorem Game.runOps_deadFor {e : Entity} {ops : List Op} :
    ∀ {g g' : Game}, g.runOps ops = some g' → g.entities.deadFor e →
      g'.entities.deadFor e := by
  induction ops with
  | nil =>
    intro g g' h hd
    have hg : g = g' := Option.some_injective _ h
    exact hg ▸ hd
  | cons op ops ih =>
    intro g g' h hd
    have h' : (g.applyOp op).bind (fun g2 => g2.runOps ops) = some g' := h
    obtain ⟨g2, h2, h3⟩ := Option.bind_eq_some.mp h'
    exact ih h3 (Game.applyOp_deadFor h2 hd)

/-! ## Lemmas: the player-container invariant -/

theorem PlayerInv_add_flag {g g' : Game} {e0 : Entity} {f : Flag}
    (hdisj : f &&& components.PLAYER = 0)
    (h : g.add_flag e0 f = some g') (hinv : PlayerInv g) : PlayerInv g' := by
  obtain ⟨⟨b0, hb0, hget, hother⟩, _, _, _, _, hp, _, _⟩ := Game.add_flag_spec h
  intro e
  rw [hp, hinv e]
  by_cases he : e = e0
  · subst he
    constructor
    · rintro ⟨b, hb, hbit⟩
      have hbb : b = b0 := Option.some_injective _ (hb.symm.trans hb0)
      refine ⟨b0.include_flag f, hget, ?_⟩
      show (b0.bits ||| f) &&& components.PLAYER = components.PLAYER
      rw [lor_land_of_disjoint hdisj]
      rw [hbb] at hbit
      exact hbit
    · rintro ⟨b, hb, hbit⟩
      have hbb : b = b0.include_flag f :=
        Option.some_injective _ (hb.symm.trans hget)
      refine ⟨b0, hb0, ?_⟩
      rw [hbb] at hbit
      have hbit' : (b0.bits ||| f) &&& components.PLAYER = components.PLAYER :=
        hbit
      rw [lor_land_of_disjoint hdisj] at hbit'
      exact hbit'
  · rw [hother e he]

theorem PlayerInv_new_entity {g : Game} (l : Label) (hinv : PlayerInv g) :
    PlayerInv (g.new_entity l).1 := by
  intro e
  have hpc : (g.new_entity l).1.player_container = g.player_container := rfl
  have hen : (g.new_entity l).1.entities = (g.entities.insert BitSet.empty).1 :=
    rfl
  rw [hpc, hen]
  by_cases he : e = (g.entities.insert BitSet.empty).2
  · constructor
    · intro hk
      obtain ⟨b, hb, _⟩ := (hinv e).mp hk
      rw [he, EntityMap.insert_fresh] at hb
      exact Option.noConfusion hb
    · rintro ⟨b, hb, hbit⟩
      rw [he, EntityMap.insert_ret_get] at hb
      have hbb : b = BitSet.empty := Option.some_injective _ hb.symm
      rw [hbb] at hbit
      exact absurd hbit (by decide)
  · rw [hinv e, EntityMap.insert_get_other _ _ _ he]

theorem PlayerInv_add_player {g g' : Game} {e0 : Entity} {c : PlayerComponent}
    (h : g.add_player_component e0 c = some g') (hinv : PlayerInv g) :
    PlayerInv g' := by
  have h' : ({ g with player_container := g.player_container.insert e0 c } :
      Game).add_flag e0 components.PLAYER = some g' := h
  obtain ⟨⟨b0, hb0, hget, hother⟩, _, _, _, _, hp, _, _⟩ := Game.add_flag_spec h'
  have hb0' : g.entities.get e0 = some b0 := hb0
  have hp' : g'.player_container = g.player_container.insert e0 c := hp
  intro e
  rw [hp', CMap.mem_keys_insert]
  by_cases he : e = e0
  · subst he
    constructor
    · intro _
      exact ⟨b0.include_flag components.PLAYER, hget,
        lor_land_self b0.bits components.PLAYER⟩
    · intro _
      exact Or.inl rfl
  · constructor
    · rintro (h1 | ⟨h2, _⟩)
      · exact absurd h1 he
      · obtain ⟨b, hb, hbit⟩ := (hinv e).mp h2
        rw [hother e he]
        exact ⟨b, hb, hbit⟩
    · rintro ⟨b, hb, hbit⟩
      rw [hother e he] at hb
      refine Or.inr ⟨(hinv e).mpr ⟨b, hb, hbit⟩, ?_⟩
      intro hidx
      exact he (EntityMap.live_same_idx hb hb0' hidx)

theorem PlayerInv_add_physics {g g' : Game} {e0 : Entity} {rb : RigidBody}
    {col : Collider} (h : g.add_physics e0 rb col = some g')
    (hinv : PlayerInv g) : PlayerInv g' := by
  have h' : ((({ g with
        rigid_body_set := g.rigid_body_set + 1
        collider_set := g.collider_set + 1
        rigidbody_container := g.rigidbody_container.insert e0 ⟨g.rigid_body_set⟩
        collider_container := g.collider_container.insert e0 ⟨g.collider_set⟩ } :
      Game).add_flag e0 components.RIGIDBODY).bind
      (fun g2 => g2.add_flag e0 components.COLLIDER)) = some g' := h
  obtain ⟨g2, h2, h3⟩ := Option.bind_eq_some.mp h'
  exact PlayerInv_add_flag (by decide) h3
    (PlayerInv_add_flag (by decide) h2 hinv)

theorem PlayerInv_reachable {g : Game} (h : Reachable g) : PlayerInv g := by
  induction h with
  | init =>
    intro e
    constructor
    · intro hk
      exact absurd hk (by simp [Game.default, CMap.keys])
    · rintro ⟨b, hb, _⟩
      exact Option.noConfusion hb
  | newEntity l _ ih => exact PlayerInv_new_entity l ih
  | addTexture e c _ hstep ih =>
    exact PlayerInv_add_flag (by decide) hstep ih
  | addPlayer e c _ hstep ih => exact PlayerInv_add_player hstep ih
  | addPhysics e rb col _ hstep ih => exact PlayerInv_add_physics hstep ih
  | addFixedCollider e col _ hstep ih =>
    obtain ⟨g2, h2, h3⟩ := Option.bind_eq_some.mp hstep
    exact PlayerInv_add_flag (by decide) h3 (PlayerInv_add_physics h2 ih)

/-! ## Lemmas: the fixed-timestep loop -/

theorem logicPhase_eq_pos {lag : ℚ} (h : constants.GOAL_DELTA_TIME ≤ lag) :
    logicPhase lag =
      (constants.GOAL_DELTA_TIME ::
          (logicPhase (lag - constants.GOAL_DELTA_TIME)).1,
        (logicPhase (lag - constants.GOAL_DELTA_TIME)).2) := by
  rw [logicPhase]
  rw [dif_pos h]

theorem logicPhase_eq_neg {lag : ℚ} (h : ¬constants.GOAL_DELTA_TIME ≤ lag) :
    logicPhase lag = ([], lag) := by
  rw [logicPhase]
  rw [dif_neg h]

theorem goal_delta_pos : (0 : ℚ) < constants.GOAL_DELTA_TIME := by
  norm_num [constants.GOAL_DELTA_TIME]

theorem logicPhase_spec : ∀ lag : ℚ, 0 ≤ lag →
    (∀ c ∈ (logicPhase lag).1, c = constants.GOAL_DELTA_TIME) ∧
      0 ≤ (logicPhase lag).2 ∧
      (logicPhase lag).2 < constants.GOAL_DELTA_TIME ∧
      ((logicPhase lag).1.length : ℚ) * constants.GOAL_DELTA_TIME +
        (logicPhase lag).2 = lag := by
  intro lag
  induction lag using logicPhase.induct with
  | case1 lag h ih =>
    intro _
    have h0' : 0 ≤ lag - constants.GOAL_DELTA_TIME := by
      have := goal_delta_pos
      linarith
    obtain ⟨ihall, ih0, ihlt, ihsum⟩ := ih h0'
    rw [logicPhase_eq_pos h]
    refine ⟨?_, ih0, ihlt, ?_⟩
    · intro c hc
      rcases List.mem_cons.mp hc with hc1 | hc2
      · exact hc1
      · exact ihall c hc2
    · simp only [List.length_cons]
      push_cast
      linarith [ihsum]
  | case2 lag h =>
    intro h0
    rw [logicPhase_eq_neg h]
    refine ⟨?_, h0, lt_of_not_le h, ?_⟩
    · intro c hc
      exact absurd hc (List.not_mem_nil c)
    · simp

theorem runFrames_spec : ∀ (deltas : List ℚ) (lag : ℚ), 0 ≤ lag →
    (∀ d ∈ deltas, 0 ≤ d) →
    (∀ c ∈ (runFrames lag deltas).1, c = constants.GOAL_DELTA_TIME) ∧
      0 ≤ (runFrames lag deltas).2 ∧
      (deltas = [] → (runFrames lag deltas).2 = lag) ∧
      (deltas ≠ [] →
        (runFrames lag deltas).2 < constants.GOAL_DELTA_TIME) ∧
      ((runFrames lag deltas).1.length : ℚ) * constants.GOAL_DELTA_TIME +
        (runFrames lag deltas).2 = lag + deltas.sum := by
  intro deltas
  induction deltas with
  | nil =>
    intro lag h0 _
    refine ⟨?_, h0, fun _ => rfl, fun hne => absurd rfl hne, ?_⟩
    · intro c hc
      exact absurd hc (List.not_mem_nil c)
    · simp [runFrames]
  | cons d ds ih =>
    intro lag h0 hall
    have hd0 : 0 ≤ d := hall d (List.mem_cons_self d ds)
    have hlag : 0 ≤ lag + d := by linarith
    obtain ⟨pall, p0, plt, psum⟩ := logicPhase_spec (lag + d) hlag
    have hds : ∀ x ∈ ds, 0 ≤ x := fun x hx => hall x (List.mem_cons_of_mem d hx)
    obtain ⟨rall, r0, rnil, rne, rsum⟩ :=
      ih (logicPhase (lag + d)).2 p0 hds
    have hrun : runFrames lag (d :: ds) =
        ((logicPhase (lag + d)).1 ++
            (runFrames (logicPhase (lag + d)).2 ds).1,
          (runFrames (logicPhase (lag + d)).2 ds).2) := rfl
    rw [hrun]
    refine ⟨?_, r0, ?_, ?_, ?_⟩
    · intro c hc
      rcases List.mem_append.mp hc with hc1 | hc2
      · exact pall c hc1
      · exact rall c hc2
    · intro hc
      exact absurd hc (List.cons_ne_nil d ds)
    · intro _
      by_cases hds0 : ds = []
      · rw [rnil hds0]
        exact plt
      · exact rne hds0
    · simp only [List.length_append, List.sum_cons]
      push_cast
      linarith [psum, rsum]

/-! ## Lemmas: attachment operations -/

theorem Game.add_texture_spec {g g' : Game} {e : Entity} {c : TextureComponent}
    (h : g.add_texture e c = some g') :
    (∃ b0, g.entities.get e = some b0 ∧
        g'.entities.get e = some (b0.include_flag components.TEXTURE) ∧
        ∀ e', e' ≠ e → g'.entities.get e' = g.entities.get e') ∧
      g'.texture_container = g.texture_container.insert e c ∧
      g'.player_container = g.player_container := by
  have h' : ({ g with texture_container := g.texture_container.insert e c } :
      Game).add_flag e components.TEXTURE = some g' := h
  obtain ⟨hex, _, ht, _, _, hp, _, _⟩ := Game.add_flag_spec h'
  exact ⟨hex, ht, hp⟩

theorem Game.add_player_spec {g g' : Game} {e : Entity} {c : PlayerComponent}
    (h : g.add_player_component e c = some g') :
    (∃ b0, g.entities.get e = some b0 ∧
        g'.entities.get e = some (b0.include_flag components.PLAYER) ∧
        ∀ e', e' ≠ e → g'.entities.get e' = g.entities.get e') ∧
      g'.player_container = g.player_container.insert e c := by
  have h' : ({ g with player_container := g.player_container.insert e c } :
      Game).add_flag e components.PLAYER = some g' := h
  obtain ⟨hex, _, _, _, _, hp, _, _⟩ := Game.add_flag_spec h'
  exact ⟨hex, hp⟩

theorem Game.add_physics_spec {g g' : Game} {e : Entity} {rb : RigidBody}
    {col : Collider} (h : g.add_physics e rb col = some g') :
    (∃ b0, g.entities.get e = some b0 ∧
        g'.entities.get e = some
          ⟨(b0.bits ||| components.RIGIDBODY) ||| components.COLLIDER⟩ ∧
        ∀ e', e' ≠ e → g'.entities.get e' = g.entities.get e') ∧
      g'.rigidbody_container =
        g.rigidbody_container.insert e ⟨g.rigid_body_set⟩ ∧
      g'.collider_container = g.collider_container.insert e ⟨g.collider_set⟩ := by
  have h' : ((({ g with
        rigid_body_set := g.rigid_body_set + 1
        collider_set := g.collider_set + 1
        rigidbody_container := g.rigidbody_container.insert e ⟨g.rigid_body_set⟩
        collider_container := g.collider_container.insert e ⟨g.collider_set⟩ } :
      Game).add_flag e components.RIGIDBODY).bind
      (fun g2 => g2.add_flag e components.COLLIDER)) = some g' := h
  obtain ⟨g2, h2, h3⟩ := Option.bind_eq_some.mp h'
  obtain ⟨⟨b0, hb0, hget2, hoth2⟩, _, _, hr2, hc2, _, _, _⟩ :=
    Game.add_flag_spec h2
  obtain ⟨⟨b1, hb1, hget3, hoth3⟩, _, _, hr3, hc3, _, _, _⟩ :=
    Game.add_flag_spec h3
  have hb1' : b1 = b0.include_flag components.RIGIDBODY :=
    Option.some_injective _ (hb1.symm.trans hget2)
  refine ⟨⟨b0, hb0, ?_, ?_⟩, ?_, ?_⟩
  · rw [hget3, hb1']
    rfl
  · intro e' he'
    rw [hoth3 e' he', hoth2 e' he']
  · rw [hr3, hr2]
  · rw [hc3, hc2]

theorem Game.add_fixed_collider_spec {g g' : Game} {e : Entity}
    {col : Collider} (h : g.add_fixed_collider e col = some g') :
    (∃ b0, g.entities.get e = some b0 ∧
        g'.entities.get e = some
          ⟨((b0.bits ||| components.RIGIDBODY) ||| components.COLLIDER) |||
            components.FIXED_COLLIDER⟩ ∧
        ∀ e', e' ≠ e → g'.entities.get e' = g.entities.get e') ∧
      g'.rigidbody_container =
        g.rigidbody_container.insert e ⟨g.rigid_body_set⟩ ∧
      g'.collider_container = g.collider_container.insert e ⟨g.collider_set⟩ := by
  have h' : (g.add_physics e () col).bind
      (fun g2 => g2.add_flag e components.FIXED_COLLIDER) = some g' := h
  obtain ⟨g2, h2, h3⟩ := Option.bind_eq_some.mp h'
  obtain ⟨⟨b0, hb0, hget2, hoth2⟩, hr2, hc2⟩ := Game.add_physics_spec h2
  obtain ⟨⟨b1, hb1, hget3, hoth3⟩, _, _, hr3, hc3, _, _, _⟩ :=
    Game.add_flag_spec h3
  have hb1' : b1 =
      ⟨(b0.bits ||| components.RIGIDBODY) ||| components.COLLIDER⟩ :=
    Option.some_injective _ (hb1.symm.trans hget2)
  refine ⟨⟨b0, hb0, ?_, ?_⟩, ?_, ?_⟩
  · rw [hget3, hb1']
    rfl
  · intro e' he'
    rw [hoth3 e' he', hoth2 e' he']
  · rw [hr3, hr2]
  · rw [hc3, hc2]

/-! ## Lemmas: the full registry -/

theorem findVacant_fullSlots (n : Nat) : findVacant (fullSlots n) = none := by
  unfold fullSlots
  induction n with
  | zero => rfl
  | succ k ih =>
    rw [List.replicate_succ]
    show (findVacant (List.replicate k ⟨0, some BitSet.empty⟩)).map
      (fun p => (p.1 + 1, p.2)) = none
    rw [ih]
    rfl

theorem liveCount_fullSlots (n : Nat) :
    EntityMap.liveCount ⟨fullSlots n⟩ = n := by
  show ((fullSlots n).filter (fun s => s.val.isSome)).length = n
  unfold fullSlots
  induction n with
  | zero => rfl
  | succ k ih =>
    rw [List.replicate_succ, List.filter_cons]
    simp only [Option.isSome_some, if_true, List.length_cons, ih]

/-! ## The claims -/

/-- C1: for every query bitset `q` and every registry state, the entities
selected the way the rendering systems select them (filter the live
entity→bitset mapping by `is_subset_of`) are exactly the live entities whose
flag set is a superset of the query: `e` is selected iff `e` is live with
bitset `b` and every bit of `q` is set in `b`.  In particular no removed
entity is ever selected. -/
theorem c1_query_selects_exactly_supersets (g : Game) (q : components.Query)
    (e : Entity) :
    e ∈ g.query q ↔
      ∃ b, g.entities.get e = some b ∧
        ∀ i, q.bits.testBit i = true → b.bits.testBit i = true := by
  rw [Game.mem_query]
  exact exists_congr fun b =>
    and_congr_right fun _ => is_subset_of_iff q b

/-- C3 counterexample: `contains` is an intersection test, not an
all-bits-set test.  For the set with bit pattern 1 and the two-bit flag
value 3, `contains` returns `true` although bit 1 of the flag is not set in
the set. -/
theorem c3_counterexample :
    (BitSet.new 1).contains 3 = true ∧ ¬(BitSet.new 1).containsAllBits 3 := by
  constructor
  · decide
  · intro h
    have h' : (1 : Nat) &&& 3 = 3 := h
    exact absurd h' (by decide)

/-- C3 (amended): `s.contains(f)` returns `true` iff `s` and `f` share at
least one set bit (for the single-bit flag constants of this program this
coincides with "the flag's bit is set", but not for multi-bit values, and
`contains 0` is always `false`). -/
theorem c3_contains_is_intersection_test (s : BitSet) (f : Flag) :
    s.contains f = true ↔
      ∃ i, s.bits.testBit i = true ∧ f.testBit i = true :=
  contains_iff_exists_common_bit s f

/-- C8 counterexample: for the flag value 0 the claimed identity
`empty().with(f).contains(f) == true` fails: `contains` is `!= 0`, and
OR-ing 0 into the empty set leaves the pattern 0. -/
theorem c8_counterexample :
    (BitSet.empty.withFlag 0).contains 0 = false := by
  decide

/-- C8 (amended): `empty().contains(f)` is `false` for every flag value;
`empty().with(f).contains(f)` is `true` for every nonzero flag value (it
fails only at `f = 0`); and `with` is commutative and associative with
respect to OR. -/
theorem c8_bitset_algebra (f g h : Flag) (s : BitSet) :
    BitSet.empty.contains f = false ∧
      (f ≠ 0 → (BitSet.empty.withFlag f).contains f = true) ∧
      (s.withFlag f).withFlag g = (s.withFlag g).withFlag f ∧
      (s.withFlag f).withFlag g = s.withFlag (f ||| g) ∧
      ((s.withFlag f).withFlag g).withFlag h =
        s.withFlag (f ||| (g ||| h)) := by
  refine ⟨?_, ?_, ?_, ?_, ?_⟩
  · show ((0 &&& f) != 0) = false
    rw [Nat.zero_and]
    rfl
  · intro hf
    show ((0 ||| f) &&& f != 0) = true
    rw [Nat.zero_or, land_self_eq]
    exact bne_iff_ne.mpr hf
  · show (⟨(s.bits ||| f) ||| g⟩ : BitSet) = ⟨(s.bits ||| g) ||| f⟩
    rw [Nat.lor_assoc, Nat.lor_comm f g, ← Nat.lor_assoc]
  · show (⟨(s.bits ||| f) ||| g⟩ : BitSet) = ⟨s.bits ||| (f ||| g)⟩
    rw [Nat.lor_assoc]
  · show (⟨((s.bits ||| f) ||| g) ||| h⟩ : BitSet) =
      ⟨s.bits ||| (f ||| (g ||| h))⟩
    rw [Nat.lor_assoc, Nat.lor_assoc]

/-- C8 witness: the amended theorem applied at the concrete flags 1, 2, 4 on
the empty set, with the nonzero hypothesis discharged at `f = 1`. -/
theorem c8_witness :
    (1 : Flag) ≠ 0 ∧ (BitSet.empty.withFlag 1).contains 1 = true :=
  ⟨by decide, (c8_bitset_algebra 1 2 4 BitSet.empty).2.1 (by decide)⟩

/-- C6: `remove_entity` touches only the entity registry: every component
container (label, texture, rigidbody, collider, player) and both external
physics sets are left unchanged, so a component container still holds its
(now stale) entry for the removed entity. -/
theorem c6_remove_entity_touches_only_registry (g : Game) (e : Entity) :
    (g.remove_entity e).label_container = g.label_container ∧
      (g.remove_entity e).texture_container = g.texture_container ∧
      (g.remove_entity e).rigidbody_container = g.rigidbody_container ∧
      (g.remove_entity e).collider_container = g.collider_container ∧
      (g.remove_entity e).player_container = g.player_container ∧
      (g.remove_entity e).rigid_body_set = g.rigid_body_set ∧
      (g.remove_entity e).collider_set = g.collider_set ∧
      (g.remove_entity e).texture_container.get e = g.texture_container.get e :=
  ⟨rfl, rfl, rfl, rfl, rfl, rfl, rfl, rfl⟩

/-- C9: calling `remove_entity` with a non-live handle (never allocated or
already removed) is a silent no-op leaving the whole game state unchanged,
while `add_flag` and `remove_flag` panic (modelled as `none`) on the same
handle. -/
theorem c9_remove_nonlive_is_noop (g : Game) (e : Entity) (f : Flag)
    (h : g.entities.get e = none) :
    g.remove_entity e = g ∧ g.add_flag e f = none ∧
      g.remove_flag e f = none := by
  refine ⟨?_, ?_, ?_⟩
  · show { g with entities := g.entities.remove e } = g
    have hrm : g.entities.remove e = g.entities := by
      cases hs : slotAt g.entities.slots e.idx with
      | none => exact EntityMap.remove_eq_self_of_out hs
      | some s =>
        refine EntityMap.remove_eq_self_of_stale hs ?_
        rintro ⟨hg, hv⟩
        have hval : g.entities.get e = s.val := by
          unfold EntityMap.get
          rw [hs]
          exact if_pos hg
        rw [h] at hval
        rw [← hval] at hv
        exact Bool.noConfusion hv
    rw [hrm]
  · unfold Game.add_flag
    rw [(EntityMap.update_none_iff _ _ _).mpr h]
    rfl
  · unfold Game.remove_flag
    rw [(EntityMap.update_none_iff _ _ _).mpr h]
    rfl

/-- C9 witness: the never-allocated handle `⟨0, 0⟩` on the initial game. -/
theorem c9_witness :
    Game.default.entities.get ⟨0, 0⟩ = none ∧
      (Game.default.remove_entity ⟨0, 0⟩ = Game.default ∧
        Game.default.add_flag ⟨0, 0⟩ 1 = none ∧
        Game.default.remove_flag ⟨0, 0⟩ 1 = none) :=
  ⟨rfl, c9_remove_nonlive_is_noop Game.default ⟨0, 0⟩ 1 rfl⟩

/-- C2: each component-attachment operation pairs the container insert with
the flag set, so that immediately afterwards the entity's bitset contains
the corresponding flag and the checked container lookup returns exactly the
inserted value (for `add_physics` / `add_fixed_collider`, the freshly
allocated handle records). -/
theorem c2_attach_pairs_insert_and_flag (g : Game) (e : Entity) :
    (∀ (c : TextureComponent) (g' : Game), g.add_texture e c = some g' →
      (∃ b, g'.entities.get e = some b ∧
        b.contains components.TEXTURE = true) ∧
      g'.texture_container.get e = some c) ∧
    (∀ (c : PlayerComponent) (g' : Game),
      g.add_player_component e c = some g' →
      (∃ b, g'.entities.get e = some b ∧
        b.contains components.PLAYER = true) ∧
      g'.player_container.get e = some c) ∧
    (∀ (rb : RigidBody) (col : Collider) (g' : Game),
      g.add_physics e rb col = some g' →
      (∃ b, g'.entities.get e = some b ∧
        b.contains components.RIGIDBODY = true ∧
        b.contains components.COLLIDER = true) ∧
      g'.rigidbody_container.get e = some ⟨g.rigid_body_set⟩ ∧
      g'.collider_container.get e = some ⟨g.collider_set⟩) ∧
    (∀ (col : Collider) (g' : Game), g.add_fixed_collider e col = some g' →
      (∃ b, g'.entities.get e = some b ∧
        b.contains components.FIXED_COLLIDER = true ∧
        b.contains components.RIGIDBODY = true ∧
        b.contains components.COLLIDER = true) ∧
      g'.rigidbody_container.get e = some ⟨g.rigid_body_set⟩ ∧
      g'.collider_container.get e = some ⟨g.collider_set⟩) := by
  refine ⟨?_, ?_, ?_, ?_⟩
  · intro c g' h
    obtain ⟨⟨b0, _, hget, _⟩, ht, _⟩ := Game.add_texture_spec h
    refine ⟨⟨b0.include_flag components.TEXTURE, hget, ?_⟩, ?_⟩
    · show ((b0.bits ||| components.TEXTURE) &&& components.TEXTURE != 0) = true
      rw [lor_land_self]
      decide
    · rw [ht]
      exact CMap.get_insert_self _ _ _
  · intro c g' h
    obtain ⟨⟨b0, _, hget, _⟩, hp⟩ := Game.add_player_spec h
    refine ⟨⟨b0.include_flag components.PLAYER, hget, ?_⟩, ?_⟩
    · show ((b0.bits ||| components.PLAYER) &&& components.PLAYER != 0) = true
      rw [lor_land_self]
      decide
    · rw [hp]
      exact CMap.get_insert_self _ _ _
  · intro rb col g' h
    obtain ⟨⟨b0, _, hget, _⟩, hr, hc⟩ := Game.add_physics_spec h
    refine ⟨⟨⟨(b0.bits ||| components.RIGIDBODY) ||| components.COLLIDER⟩,
      hget, ?_, ?_⟩, ?_, ?_⟩
    · show (((b0.bits ||| components.RIGIDBODY) ||| components.COLLIDER) &&&
        components.RIGIDBODY != 0) = true
      rw [land_mono_lor components.COLLIDER
        (lor_land_self b0.bits components.RIGIDBODY)]
      decide
    · show (((b0.bits ||| components.RIGIDBODY) ||| components.COLLIDER) &&&
        components.COLLIDER != 0) = true
      rw [lor_land_self]
      decide
    · rw [hr]
      exact CMap.get_insert_self _ _ _
    · rw [hc]
      exact CMap.get_insert_self _ _ _
  · intro col g' h
    obtain ⟨⟨b0, _, hget, _⟩, hr, hc⟩ := Game.add_fixed_collider_spec h
    refine ⟨⟨⟨((b0.bits ||| components.RIGIDBODY) ||| components.COLLIDER) |||
      components.FIXED_COLLIDER⟩, hget, ?_, ?_, ?_⟩, ?_, ?_⟩
    · show ((((b0.bits ||| components.RIGIDBODY) ||| components.COLLIDER) |||
        components.FIXED_COLLIDER) &&& components.FIXED_COLLIDER != 0) = true
      rw [lor_land_self]
      decide
    · show ((((b0.bits ||| components.RIGIDBODY) ||| components.COLLIDER) |||
        components.FIXED_COLLIDER) &&& components.RIGIDBODY != 0) = true
      rw [land_mono_lor components.FIXED_COLLIDER
        (land_mono_lor components.COLLIDER
          (lor_land_self b0.bits components.RIGIDBODY))]
      decide
    · show ((((b0.bits ||| components.RIGIDBODY) ||| components.COLLIDER) |||
        components.FIXED_COLLIDER) &&& components.COLLIDER != 0) = true
      rw [land_mono_lor components.FIXED_COLLIDER
        (lor_land_self (b0.bits ||| components.RIGIDBODY) components.COLLIDER)]
      decide
    · rw [hr]
      exact CMap.get_insert_self _ _ _
    · rw [hc]
      exact CMap.get_insert_self _ _ _

/-- C2 witness: attaching a texture to the live entity of `demoGame1`. -/
theorem c2_witness :
    demoGame1.add_texture demoE ⟨1, 2, 3⟩ = some demoTexGame ∧
      ((∃ b, demoTexGame.entities.get demoE = some b ∧
          b.contains components.TEXTURE = true) ∧
        demoTexGame.texture_container.get demoE = some ⟨1, 2, 3⟩) :=
  ⟨by decide,
    (c2_attach_pairs_insert_and_flag demoGame1 demoE).1 ⟨1, 2, 3⟩ demoTexGame
      (by decide)⟩

/-- C4 counterexample: with `MAX_ENTITIES = 1000` live entities, a further
`new_entity` call silently succeeds — the backing storage grows, the live
count becomes 1001, and the returned handle is live with an empty bitset. -/
theorem c4_counterexample :
    gameFull.entities.liveCount = constants.MAX_ENTITIES ∧
      (gameFull.new_entity 0).1.entities.liveCount =
        constants.MAX_ENTITIES + 1 ∧
      (gameFull.new_entity 0).1.entities.get (gameFull.new_entity 0).2 =
        some BitSet.empty := by
  refine ⟨liveCount_fullSlots _, ?_, EntityMap.insert_ret_get _ _⟩
  show (EntityMap.insert ⟨fullSlots constants.MAX_ENTITIES⟩
    BitSet.empty).1.liveCount = constants.MAX_ENTITIES + 1
  rw [EntityMap.liveCount_insert, liveCount_fullSlots]

/-- C4 (amended): `MAX_ENTITIES` only pre-sizes the backing storage
(`with_capacity_and_key` is a capacity hint); `new_entity` performs no
capacity check and never fails at this scale: on any registry state it
increments the live count by one and returns a live handle, including on a
registry already holding `MAX_ENTITIES` live entities. -/
theorem c4_creation_never_fails (g : Game) (l : Label) :
    (g.new_entity l).1.entities.liveCount = g.entities.liveCount + 1 ∧
      (g.new_entity l).1.entities.get (g.new_entity l).2 =
        some BitSet.empty :=
  ⟨EntityMap.liveCount_insert _ _, EntityMap.insert_ret_get _ _⟩

/-- C5: once an entity live in `g` is removed, it never again appears in the
result of any query, whatever ECS API calls (entity creations included) are
performed afterwards: the generation of its slot has moved past the
handle's generation and generations never decrease. -/
theorem c5_removed_never_selected (g : Game) (e : Entity) (b : BitSet)
    (hlive : g.entities.get e = some b) (ops : List Op) (g2 : Game)
    (h : (g.remove_entity e).runOps ops = some g2) (q : components.Query) :
    e ∉ g2.query q := by
  have hd0 : (g.remove_entity e).entities.deadFor e :=
    EntityMap.deadFor_of_remove hlive
  have hd2 : g2.entities.deadFor e := Game.runOps_deadFor h hd0
  intro hmem
  obtain ⟨b2, hb2, _⟩ := (Game.mem_query g2 q e).mp hmem
  rw [EntityMap.deadFor_get_none hd2] at hb2
  exact Option.noConfusion hb2

/-- C5 witness: remove the only entity of `demoGame1`, create a fresh entity
(reusing the slot), and check the removed handle matches no query. -/
theorem c5_witness :
    demoGame1.entities.get demoE = some BitSet.empty ∧
      (demoGame1.remove_entity demoE).runOps [Op.newEntity 1] =
        some demoAfter ∧
      demoE ∉ demoAfter.query BitSet.empty :=
  ⟨by decide, by decide,
    c5_removed_never_selected demoGame1 demoE BitSet.empty (by decide)
      [Op.newEntity 1] demoAfter (by decide) BitSet.empty⟩

/-- C7: over any sequence of nonnegative frame durations, every delta handed
to `run_logic_systems` is exactly `GOAL_DELTA_TIME`; after each frame's
logic phase the lag accumulator lies in `[0, GOAL_DELTA_TIME)`; and the
number of logic invocations times the fixed step equals the total elapsed
time up to that leftover lag (the arithmetic is modelled over exact
rationals). -/
theorem c7_fixed_timestep (deltas : List ℚ) (h : ∀ d ∈ deltas, 0 ≤ d) :
    (∀ c ∈ (runFrames 0 deltas).1, c = constants.GOAL_DELTA_TIME) ∧
      (∀ k : Nat, 0 ≤ (runFrames 0 (deltas.take k)).2 ∧
        (runFrames 0 (deltas.take k)).2 < constants.GOAL_DELTA_TIME) ∧
      ((runFrames 0 deltas).1.length : ℚ) * constants.GOAL_DELTA_TIME +
        (runFrames 0 deltas).2 = deltas.sum := by
  obtain ⟨hall, _, _, _, hsum⟩ :=
    runFrames_spec deltas 0 (le_refl 0) h
  refine ⟨hall, ?_, by linarith [hsum]⟩
  intro k
  have htk : ∀ d ∈ deltas.take k, 0 ≤ d :=
    fun d hd => h d (List.take_subset k deltas hd)
  obtain ⟨_, h0, hnil, hne, _⟩ :=
    runFrames_spec (deltas.take k) 0 (le_refl 0) htk
  refine ⟨h0, ?_⟩
  by_cases hcase : deltas.take k = []
  · rw [hnil hcase]
    exact goal_delta_pos
  · exact hne hcase

/-- C7 witness: one frame of duration 1/30 yields two logic invocations of
1/60 each and a final lag of 0. -/
theorem c7_witness :
    (∀ d ∈ [(1 : ℚ) / 30], 0 ≤ d) ∧
      ((∀ c ∈ (runFrames 0 [(1 : ℚ) / 30]).1,
          c = constants.GOAL_DELTA_TIME) ∧
        (∀ k : Nat, 0 ≤ (runFrames 0 (([(1 : ℚ) / 30]).take k)).2 ∧
          (runFrames 0 (([(1 : ℚ) / 30]).take k)).2 <
            constants.GOAL_DELTA_TIME) ∧
        ((runFrames 0 [(1 : ℚ) / 30]).1.length : ℚ) *
            constants.GOAL_DELTA_TIME +
          (runFrames 0 [(1 : ℚ) / 30]).2 = ([(1 : ℚ) / 30]).sum) := by
  have hpos : ∀ d ∈ [(1 : ℚ) / 30], 0 ≤ d := by
    intro d hd
    rw [List.mem_singleton.mp hd]
    norm_num
  exact ⟨hpos, c7_fixed_timestep [(1 : ℚ) / 30] hpos⟩

/-- C10: in every state reachable by entity creation and component
attachment alone (no removals), the set of entities visited by
`player_movement_system` — which iterates the player container directly —
coincides with the result of the PLAYER-flag query: the container iteration
refines the query. -/
theorem c10_player_iteration_refines_query (g : Game) (hr : Reachable g)
    (e : Entity) :
    e ∈ g.player_movement_visited ↔
      e ∈ g.query (BitSet.new components.PLAYER) := by
  have hinv := PlayerInv_reachable hr
  rw [Game.mem_query]
  show e ∈ g.player_container.keys ↔ _
  rw [hinv e]
  refine exists_congr fun b => and_congr_right fun _ => ?_
  show b.bits &&& components.PLAYER = components.PLAYER ↔
    ((b.bits &&& components.PLAYER) == components.PLAYER) = true
  rw [beq_iff_eq]

/-- C10 witness: a reachable state actually holding a player entity — the
initial game, one created entity, one attached player component. -/
theorem c10_witness :
    demoE ∈ demoPlayerGame.player_movement_visited ↔
      demoE ∈ demoPlayerGame.query (BitSet.new components.PLAYER) :=
  c10_player_iteration_refines_query demoPlayerGame
    (Reachable.addPlayer demoE ⟨⟩ (Reachable.newEntity 0 Reachable.init)
      (by decide))
    demoE

end RustEcs
